import Mathlib

/-!
Shallow embedding of the AKI dataset-extraction pipeline
(src/extract-dataset.py) and proofs about its specification.

Conventions of the embedding:
  - pandas / numpy float values are modelled as rationals; a missing value
    (NaN) is modelled as Option.none, a finite value x as Option.some x.
  - a table column is a list of values in row order; a Day-Record row of the
    imputer stage is a function from the feature catalog to Option values;
  - per-stay processing (the imputer and the labeler loop over stay ids and
    never read another stay's rows) is modelled by functions on one stay's
    ordered list of Day-Records; the whole-table pass is their filterMap;
  - a Python function that can raise is modelled with Except / Option.
-/

namespace AkiExtract

/-- The canonical feature names of the catalog, LABEVENTS_FEATURES followed
by CHARTEVENTS_FEATURES, in source order. -/
inductive Feature where
  | bicarbonate | chloride | creatinine | glucose | magnesium | potassium
  | sodium | bun | hemoglobin | platelets | wbcs | height | weight
deriving DecidableEq, Repr

/-- The feature catalog keys in source order (labevents then chartevents). -/
def allFeatures : List Feature :=
  [.bicarbonate, .chloride, .creatinine, .glucose, .magnesium, .potassium,
   .sodium, .bun, .hemoglobin, .platelets, .wbcs, .height, .weight]

/-- The item ids of each feature, from LABEVENTS_FEATURES and
CHARTEVENTS_FEATURES in extract-dataset.py. -/
def feature_item_ids : Feature → List ℕ
  | .bicarbonate => [50882]
  | .chloride => [50902]
  | .creatinine => [50912]
  | .glucose => [50931]
  | .magnesium => [50960]
  | .potassium => [50822, 50971]
  | .sodium => [50824, 50983]
  | .bun => [51006]
  | .hemoglobin => [51222]
  | .platelets => [51265]
  | .wbcs => [51300, 51301]
  | .height => [226707, 226730, 1394]
  | .weight => [763, 224639]

/-- The inverted feature catalog (the features_reversed dict of
partition_rows): maps an item id to its canonical feature, none for an item
id outside the catalog (the Python dict lookup would raise there). -/
def features_reversed (itemid : ℕ) : Option Feature :=
  allFeatures.find? (fun f => decide (itemid ∈ feature_item_ids f))

/-- One raw measurement row of filtered_events.csv, as consumed by
partition_rows. chartday abstracts the date part of charttime. -/
structure Event where
  stay_id : ℕ
  subject_id : ℕ
  chartday : ℕ
  itemid : ℕ
  valuenum : ℚ

/-- The height unit conversion of partition_rows: values of the two
inch-denominated item ids 226707 and 1394 are multiplied by 2.54. -/
def convert_valuenum (e : Event) : ℚ :=
  if e.itemid = 226707 ∨ e.itemid = 1394 then e.valuenum * 2.54 else e.valuenum

/-- The converted values of the events that contribute to the pivot cell of
stay sid, calendar day, and feature f in partition_rows. -/
def cell_values (events : List Event) (sid day : ℕ) (f : Feature) : List ℚ :=
  (events.filter (fun e =>
    decide (e.stay_id = sid ∧ e.chartday = day ∧ features_reversed e.itemid = some f))).map
    convert_valuenum

/-- One cell of the pivot table built by partition_rows: the nanmean of the
contributing converted event values, NaN (none) when no event contributes. -/
def partition_rows_cell (events : List Event) (sid day : ℕ) (f : Feature) : Option ℚ :=
  let vs := cell_values events sid day f
  if vs.length = 0 then none else some (vs.sum / vs.length)

/-- A Day-Record of the imputer stage: one Option value per catalog feature. -/
def Row : Type := Feature → Option ℚ

/-- The column of feature f over a stay's ordered Day-Records. -/
def feature_col (f : Feature) (rows : List Row) : List (Option ℚ) :=
  rows.map (fun r => r f)

/-- Forward fill with an explicit carry: a missing entry is replaced by the
nearest earlier finite value (the carry), finite entries are kept and become
the new carry.  pandas ffill on one column is ffill_col none. -/
def ffill_col : Option ℚ → List (Option ℚ) → List (Option ℚ)
  | _, [] => []
  | carry, none :: rest => carry :: ffill_col carry rest
  | _, some v :: rest => some v :: ffill_col (some v) rest

/-- pandas bfill on one column: forward fill on the reversed column. -/
def bfill_col (xs : List (Option ℚ)) : List (Option ℚ) :=
  (ffill_col none xs.reverse).reverse

/-- The fill applied by fill_nas_or_drop to every column of a stay:
forward fill, then backward fill. -/
def fill_column (xs : List (Option ℚ)) : List (Option ℚ) :=
  bfill_col (ffill_col none xs)

/-- Forward/backward fill of every feature column of one stay's Day-Records
(the df.loc[stay_id_mask] = df[stay_id_mask].ffill().bfill() line, which is
scoped to the rows of the current stay). -/
def fill_all (rows : List Row) : List Row :=
  (List.range rows.length).map
    (fun i => fun f => (fill_column (feature_col f rows)).getD i none)

/-- fill_nas_or_drop on one stay: if some catalog feature has no finite
value in any of the stay's Day-Records the whole stay is dropped (none);
otherwise every column is forward/backward filled. -/
def fill_nas_or_drop (rows : List Row) : Option (List Row) :=
  if allFeatures.all (fun f => (feature_col f rows).any (fun v => v.isSome)) then
    some (fill_all rows)
  else none

/-- Helper of get_nan_index: first index at or after i whose entry is
missing, -1 if there is none.  Mirrors the enumerate loop over result[2:]. -/
def get_nan_index_go : List (Option ℚ) → ℕ → ℤ
  | [], _ => -1
  | none :: _, i => (i : ℤ)
  | some _ :: rest, i => get_nan_index_go rest (i + 1)

/-- get_nan_index: index of the first non-finite creatinine entry, scanning
only from index 2 onward; -1 when every entry from index 2 on is finite. -/
def get_nan_index (series : List (Option ℚ)) : ℤ :=
  get_nan_index_go (series.drop 2) 2

/-- impute_holes restricted to one ICU stay (one iteration of its loop over
stay ids; the loop never reads another stay's rows): drop stays with fewer
than 3 Day-Records, drop stays with no finite creatinine from index 2 on,
drop stays whose first creatinine gap at or after index 2 is exactly at
index 2, truncate the stay at a later gap, then fill or drop by
fill_nas_or_drop. -/
def impute_holes_stay (rows : List Row) : Option (List Row) :=
  if rows.length < 3 then none
  else if ((feature_col Feature.creatinine rows).drop 2).all (fun v => v.isNone) then none
  else
    let k := get_nan_index (feature_col Feature.creatinine rows)
    if k = 2 then none
    else if k ≠ -1 then fill_nas_or_drop (rows.take k.toNat)
    else fill_nas_or_drop rows

/-- The whole-table imputer: the surviving stays, in order, each processed
independently of the others. -/
def impute_holes (stays : List (List Row)) : List (List Row) :=
  stays.filterMap impute_holes_stay

/-- The KDIGO baseline serum-creatinine table of get_baseline, keyed on the
age bracket, the black flag and the gender flag (1 = male). -/
def get_baseline (black age gender : ℕ) : ℚ :=
  if 20 ≤ age ∧ age ≤ 24 then
    if black = 1 then (if gender = 1 then 1.5 else 1.2)
    else (if gender = 1 then 1.3 else 1.0)
  else if 25 ≤ age ∧ age ≤ 29 then
    if black = 1 then (if gender = 1 then 1.5 else 1.1)
    else (if gender = 1 then 1.2 else 1.0)
  else if 30 ≤ age ∧ age ≤ 39 then
    if black = 1 then (if gender = 1 then 1.4 else 1.1)
    else (if gender = 1 then 1.2 else 0.9)
  else if 40 ≤ age ∧ age ≤ 54 then
    if black = 1 then (if gender = 1 then 1.3 else 1.0)
    else (if gender = 1 then 1.1 else 0.9)
  else
    if black = 1 then (if gender = 1 then 1.2 else 0.9)
    else (if gender = 1 then 1.0 else 0.8)

/-- Modelled from the spec: the baseline table of section 4.4 as written in
the spec, with an explicit [55, infinity) bracket; 0 outside the table's
domain (age below 20).  Used only to compare get_baseline against the
spec's table. -/
def baseline_table (black age gender : ℕ) : ℚ :=
  if 20 ≤ age ∧ age ≤ 24 then
    if black = 1 then (if gender = 1 then 1.5 else 1.2)
    else (if gender = 1 then 1.3 else 1.0)
  else if 25 ≤ age ∧ age ≤ 29 then
    if black = 1 then (if gender = 1 then 1.5 else 1.1)
    else (if gender = 1 then 1.2 else 1.0)
  else if 30 ≤ age ∧ age ≤ 39 then
    if black = 1 then (if gender = 1 then 1.4 else 1.1)
    else (if gender = 1 then 1.2 else 0.9)
  else if 40 ≤ age ∧ age ≤ 54 then
    if black = 1 then (if gender = 1 then 1.3 else 1.0)
    else (if gender = 1 then 1.1 else 0.9)
  else if 55 ≤ age then
    if black = 1 then (if gender = 1 then 1.2 else 0.9)
    else (if gender = 1 then 1.0 else 0.8)
  else 0

/-- KDIGO criterion 1 of has_aki: a day-over-day creatinine rise of at
least 0.3 mg/dl. -/
def hasAkiDiff (d : ℚ) : Bool := decide (0.3 ≤ d)

/-- KDIGO criterion 2 of has_aki: an absolute creatinine level at or above
1.5 times the demographic baseline. -/
def hasAkiScr (s : ℚ) (black age gender : ℕ) : Bool :=
  decide (1.5 * get_baseline black age gender ≤ s)

/-- has_aki with its optional-argument interface: a supplied diff decides
the call by criterion 1 alone; otherwise a supplied scr requires all three
demographics (each bare assert is an error) and decides by criterion 2;
otherwise the call is a fatal error. -/
def has_aki (diff scr : Option ℚ) (black age gender : Option ℕ) : Except String Bool :=
  match diff with
  | some d => .ok (hasAkiDiff d)
  | none =>
    match scr with
    | some s =>
      match black with
      | none => .error "assertion failed: black is None"
      | some b =>
        match age with
        | none => .error "assertion failed: age is None"
        | some a =>
          match gender with
          | none => .error "assertion failed: gender is None"
          | some g => .ok (hasAkiScr s b a g)
    | none => .error "ERROR - Should pass diff OR scr"

/-- One ICU stay as seen by add_aki_labels: the per-stay demographics (read
from the first row, constant over the stay) and the creatinine value of each
Day-Record in day order (gap-free after the imputer). -/
structure LabelerStay where
  black : ℕ
  age : ℕ
  gender : ℕ
  scr : List ℚ

/-- The day-to-day creatinine difference series scr[1:] - scr[:-1]. -/
def creat_diffs (scr : List ℚ) : List ℚ :=
  List.zipWith (fun a b => a - b) scr.tail scr

/-- add_aki_labels restricted to one ICU stay (one iteration of its loop;
the loop never reads another stay's rows).  none when the whole stay is
dropped (age below 20, or AKI already within the first 48 hours); otherwise
the retained Day-Records, each as its creatinine value paired with its aki
label: label 0 at index 0, then the next-day labels, with the last
Day-Record removed and the stay truncated to its first 8 records. -/
def add_aki_labels_stay (st : LabelerStay) : Option (List (ℚ × ℤ)) :=
  let scr := st.scr
  let diffs := creat_diffs scr
  if st.age < 20 then none
  else if hasAkiDiff (diffs.getD 0 0)
      || hasAkiScr (scr.getD 0 0) st.black st.age st.gender
      || hasAkiScr (scr.getD 1 0) st.black st.age st.gender then none
  else
    let aki : List Bool := List.zipWith
      (fun d s => hasAkiDiff d || hasAkiScr s st.black st.age st.gender)
      diffs.tail (scr.drop 2)
    let labels : List ℤ := 0 :: aki.map (fun b => if b then 1 else 0)
    some ((scr.dropLast.zip labels).take 8)

/-- The sorted copy of a feature column used by the percentile computation
of transform_outliers. -/
def sorted_col (xs : List ℚ) : List ℚ := List.insertionSort (fun a b => a ≤ b) xs

/-- pandas Series.quantile with the default linear interpolation: the value
at fractional position p * (n - 1) of the sorted column. -/
def quantile (p : ℚ) (xs : List ℚ) : ℚ :=
  let s := sorted_col xs
  let pos : ℚ := p * ((s.length : ℚ) - 1)
  let i : ℕ := (⌊pos⌋).toNat
  let x0 := s.getD i 0
  let x1 := s.getD (i + 1) x0
  x0 + (pos - (i : ℚ)) * (x1 - x0)

/-- transform_outliers on one feature column: values strictly below the 1st
percentile are replaced by it, values strictly above the 99th percentile are
replaced by it (the two masks are computed on the incoming column). -/
def transform_outliers_col (xs : List ℚ) : List ℚ :=
  let ub := quantile (99 / 100) xs
  let lb := quantile (1 / 100) xs
  xs.map (fun v => if v < lb then lb else if ub < v then ub else v)

/-- transform_outliers on a whole table, viewed as its list of feature
columns: each column is winsorized independently. -/
def transform_outliers (tbl : List (List ℚ)) : List (List ℚ) :=
  tbl.map transform_outliers_col

/-- A Day-Record with every catalog feature measured (value 1), used as a
concrete test input. -/
def exRowFull : Row := fun _ => some 1

/-- A Day-Record whose creatinine is missing and every other feature is 1,
used as a concrete test input. -/
def exRowGap : Row := fun f => match f with
  | Feature.creatinine => none
  | _ => some 1

/-- A concrete 3-day stay with complete measurements. -/
def exStay3 : List Row := [exRowFull, exRowFull, exRowFull]

/-- A concrete 5-day stay whose creatinine is missing exactly at day
index 4 (the spec's truncation example). -/
def exStay5 : List Row := [exRowFull, exRowFull, exRowFull, exRowFull, exRowGap]

/-- C7: for every age at least 20 and flags black, gender in 0..1,
get_baseline agrees with the spec's piecewise baseline table on all 20
cells; in particular baseline(1, 30, 1) = 1.4 and baseline(0, 60, 0) = 0.8. -/
theorem get_baseline_matches_spec_table :
    (∀ black age gender : ℕ, black ≤ 1 → gender ≤ 1 → 20 ≤ age →
      get_baseline black age gender = baseline_table black age gender) ∧
    get_baseline 1 30 1 = 1.4 ∧ get_baseline 0 60 0 = 0.8 := by
  refine ⟨?_, rfl, rfl⟩
  intro black age gender _ _ h20
  unfold get_baseline baseline_table
  split_ifs <;> first | rfl | omega

/-- Witness for C7: the theorem applied at black = 1, age = 30, gender = 1. -/
theorem get_baseline_matches_spec_table_witness :
    get_baseline 1 30 1 = baseline_table 1 30 1 :=
  get_baseline_matches_spec_table.1 1 30 1 (by decide) (by decide) (by decide)

/-- C8: has_aki decides by the difference criterion whenever diff is
supplied, decides by the absolute criterion against the baseline when scr
and all three demographics are supplied, errors when neither diff nor scr
is supplied, and errors when scr is supplied (without diff) but one of
black, age, gender is missing. -/
theorem has_aki_interface_spec :
    (∀ (d : ℚ) (scr : Option ℚ) (black age gender : Option ℕ),
      has_aki (some d) scr black age gender = .ok (decide (0.3 ≤ d))) ∧
    (∀ (s : ℚ) (b a g : ℕ),
      has_aki none (some s) (some b) (some a) (some g)
        = .ok (decide (1.5 * get_baseline b a g ≤ s))) ∧
    (∀ black age gender : Option ℕ,
      has_aki none none black age gender = .error "ERROR - Should pass diff OR scr") ∧
    (∀ (s : ℚ) (a g : Option ℕ),
      has_aki none (some s) none a g = .error "assertion failed: black is None") ∧
    (∀ (s : ℚ) (b : ℕ) (g : Option ℕ),
      has_aki none (some s) (some b) none g = .error "assertion failed: age is None") ∧
    (∀ (s : ℚ) (b a : ℕ),
      has_aki none (some s) (some b) (some a) none
        = .error "assertion failed: gender is None") :=
  ⟨fun _ _ _ _ _ => rfl, fun _ _ _ _ => rfl, fun _ _ _ => rfl,
   fun _ _ _ => rfl, fun _ _ _ => rfl, fun _ _ _ => rfl⟩

/-- C9: when both diff and scr are supplied, has_aki raises no error: the
difference criterion alone decides the call, and scr together with the
demographic arguments is ignored. -/
theorem has_aki_both_arguments_diff_wins :
    ∀ (d s : ℚ) (black age gender : Option ℕ),
      has_aki (some d) (some s) black age gender = .ok (decide (0.3 ≤ d)) :=
  fun _ _ _ _ _ => rfl

/-- C10: a pivot cell of the feature aggregator is the arithmetic mean of
the converted values of the events contributing to that stay, day and
feature (none contributing yields NaN, not zero and not an error); the
inch-denominated height item ids are multiplied by 2.54 first, so a single
event with itemid 1394 and value 70 yields height 177.8, and two glucose
events 100 and 120 on one day yield 110. -/
theorem partition_rows_cell_spec :
    (∀ (events : List Event) (sid day : ℕ) (f : Feature),
      partition_rows_cell events sid day f = none ↔ cell_values events sid day f = []) ∧
    (∀ (events : List Event) (sid day : ℕ) (f : Feature) (m : ℚ),
      partition_rows_cell events sid day f = some m →
      m * (cell_values events sid day f).length = (cell_values events sid day f).sum) ∧
    partition_rows_cell [⟨7, 1, 0, 1394, 70⟩] 7 0 Feature.height = some 177.8 ∧
    partition_rows_cell [⟨7, 1, 0, 50931, 100⟩, ⟨7, 1, 0, 50931, 120⟩] 7 0 Feature.glucose
      = some 110 := by
  refine ⟨?_, ?_, ?_, ?_⟩
  · intro events sid day f
    simp only [partition_rows_cell]
    split_ifs with h
    · simp [List.length_eq_zero.mp h]
    · constructor
      · intro hc
        exact absurd hc (by simp)
      · intro hc
        exact absurd (by simp [hc]) h
  · intro events sid day f m hm
    simp only [partition_rows_cell] at hm
    split_ifs at hm with h
    have hm' := Option.some.inj hm
    have hne : ((cell_values events sid day f).length : ℚ) ≠ 0 := by
      exact_mod_cast h
    rw [← hm', div_mul_cancel₀ _ hne]
  · have h : partition_rows_cell [⟨7, 1, 0, 1394, 70⟩] 7 0 Feature.height
        = some ((70 * 2.54 + 0) / 1) := rfl
    rw [h]
    norm_num
  · have h : partition_rows_cell [⟨7, 1, 0, 50931, 100⟩, ⟨7, 1, 0, 50931, 120⟩] 7 0
        Feature.glucose = some ((100 + (120 + 0)) / 2) := rfl
    rw [h]
    norm_num

/-- Witness for C10: the mean property applied at the concrete single-event
height cell. -/
theorem partition_rows_cell_spec_witness :
    (177.8 : ℚ) * (cell_values [⟨7, 1, 0, 1394, 70⟩] 7 0 Feature.height).length
      = (cell_values [⟨7, 1, 0, 1394, 70⟩] 7 0 Feature.height).sum :=
  partition_rows_cell_spec.2.1 [⟨7, 1, 0, 1394, 70⟩] 7 0 Feature.height 177.8
    partition_rows_cell_spec.2.2.1

/-- C4: the labeler removes a stay entirely, and otherwise keeps it, if and
only if its age is below 20, or the day-0-to-day-1 creatinine rise is at
least 0.3, or the absolute creatinine of day 0 or of day 1 reaches 1.5
times the demographic baseline; days after index 1 play no part. -/
theorem add_aki_labels_drop_iff (st : LabelerStay) (h2 : 2 ≤ st.scr.length) :
    add_aki_labels_stay st = none ↔
      st.age < 20 ∨ 0.3 ≤ st.scr.getD 1 0 - st.scr.getD 0 0
      ∨ 1.5 * get_baseline st.black st.age st.gender ≤ st.scr.getD 0 0
      ∨ 1.5 * get_baseline st.black st.age st.gender ≤ st.scr.getD 1 0 := by
  obtain ⟨b, a, g, scr⟩ := st
  obtain ⟨x, y, t, rfl⟩ : ∃ x y t, scr = x :: y :: t := by
    match scr, h2 with
    | x :: y :: t, _ => exact ⟨x, y, t, rfl⟩
  simp only [add_aki_labels_stay, creat_diffs, List.tail_cons, List.zipWith_cons_cons,
    List.getD_cons_zero, List.getD_cons_succ]
  split_ifs with h1 hc
  · exact iff_of_true rfl (Or.inl h1)
  · simp only [hasAkiDiff, hasAkiScr, Bool.or_eq_true, decide_eq_true_eq] at hc
    exact iff_of_true rfl (by tauto)
  · refine iff_of_false (by simp) ?_
    simp only [hasAkiDiff, hasAkiScr, Bool.or_eq_true, decide_eq_true_eq] at hc
    push_neg at hc
    intro hr
    rcases hr with hr | hr | hr | hr
    · exact h1 hr
    · exact absurd hr (not_le.mpr hc.1.1)
    · exact absurd hr (not_le.mpr hc.1.2)
    · exact absurd hr (not_le.mpr hc.2)

/-- Witness for C4: the spec's pre-window exclusion example, a stay whose
day-0-to-day-1 rise is at least 0.3 is dropped: creatinine 1.0 then 1.4
with age 45, non-black, male. -/
theorem add_aki_labels_drop_iff_witness :
    add_aki_labels_stay ⟨0, 45, 1, [1, 14/10, 1]⟩ = none := by
  rw [add_aki_labels_drop_iff ⟨0, 45, 1, [1, 14/10, 1]⟩ (by simp)]
  right
  left
  simp only [List.getD_cons_zero, List.getD_cons_succ]
  norm_num

/-- Every canonical feature is a key of the catalog. -/
theorem mem_allFeatures (f : Feature) : f ∈ allFeatures := by
  cases f <;> simp [allFeatures]

/-- Forward filling does not change the column length. -/
theorem length_ffill_col (c : Option ℚ) (xs : List (Option ℚ)) :
    (ffill_col c xs).length = xs.length := by
  induction xs generalizing c with
  | nil => rfl
  | cons x rest ih => cases x <;> simp [ffill_col, ih]

/-- The combined forward/backward fill does not change the column length. -/
theorem length_fill_column (xs : List (Option ℚ)) :
    (fill_column xs).length = xs.length := by
  simp [fill_column, bfill_col, length_ffill_col]

/-- With a finite carry, every entry of a forward-filled column is finite. -/
theorem ffill_col_all_some (c : Option ℚ) (xs : List (Option ℚ)) (hc : c.isSome = true) :
    ∀ y ∈ ffill_col c xs, y.isSome = true := by
  induction xs generalizing c with
  | nil => intro y hy; simp [ffill_col] at hy
  | cons x rest ih =>
    intro y hy
    cases x with
    | none =>
      rcases (by simpa [ffill_col] using hy : y = c ∨ y ∈ ffill_col c rest) with h | h
      · exact h ▸ hc
      · exact ih c hc y h
    | some v =>
      rcases (by simpa [ffill_col] using hy : y = some v ∨ y ∈ ffill_col (some v) rest)
        with h | h
      · simp [h]
      · exact ih (some v) rfl y h

/-- If the carry is finite or the column has a finite entry, the last entry
of the forward-filled column is finite. -/
theorem ffill_col_getLastD (c : Option ℚ) (xs : List (Option ℚ))
    (h : c.isSome = true ∨ ∃ x ∈ xs, x.isSome = true) :
    ((ffill_col c xs).getLastD c).isSome = true := by
  induction xs generalizing c with
  | nil =>
    rcases h with h | ⟨x, hx, _⟩
    · simpa [ffill_col] using h
    · simp at hx
  | cons x rest ih =>
    cases x with
    | none =>
      rw [show ffill_col c (none :: rest) = c :: ffill_col c rest from rfl,
        List.getLastD_cons]
      refine ih c ?_
      rcases h with h | ⟨x, hx, hs⟩
      · exact Or.inl h
      · rcases List.mem_cons.mp hx with rfl | hx
        · simp at hs
        · exact Or.inr ⟨x, hx, hs⟩
    | some v =>
      rw [show ffill_col c (some v :: rest) = some v :: ffill_col (some v) rest from rfl,
        List.getLastD_cons]
      exact ih (some v) (Or.inl rfl)

/-- If the column has at least one finite entry, every entry after the
forward/backward fill is finite. -/
theorem fill_column_all_some (xs : List (Option ℚ)) (hex : ∃ x ∈ xs, x.isSome = true) :
    ∀ y ∈ fill_column xs, y.isSome = true := by
  intro y hy
  have hlast : ((ffill_col none xs).getLastD none).isSome = true :=
    ffill_col_getLastD none xs (Or.inr hex)
  have hne : ffill_col none xs ≠ [] := by
    obtain ⟨x, hx, _⟩ := hex
    have : xs ≠ [] := by rintro rfl; simp at hx
    have hxs : xs ≠ [] := by rintro rfl; simp at hx
    intro hcon
    have hlen := length_ffill_col none xs
    rw [hcon] at hlen
    exact hxs (List.length_eq_zero.mp (by simpa using hlen.symm))
  obtain ⟨z, zs, hrev⟩ : ∃ z zs, (ffill_col none xs).reverse = z :: zs := by
    cases hr : (ffill_col none xs).reverse with
    | nil => exact absurd (List.reverse_eq_nil_iff.mp hr) hne
    | cons z zs => exact ⟨z, zs, rfl⟩
  have hz : z.isSome = true := by
    have h1 : (ffill_col none xs).reverse.head? = some z := by rw [hrev]; rfl
    have h2 : (ffill_col none xs).getLast? = some z := by
      rw [← List.head?_reverse]; exact h1
    have h3 : (ffill_col none xs).getLastD none = z := by
      rw [List.getLastD_eq_getLast?, h2]; rfl
    rw [← h3]; exact hlast
  obtain ⟨w, rfl⟩ := Option.isSome_iff_exists.mp hz
  have hy' : y ∈ ffill_col none ((ffill_col none xs).reverse) := by
    have := List.mem_reverse.mpr hy
    simpa [fill_column, bfill_col] using List.mem_reverse.mp (by
      simpa [fill_column, bfill_col] using hy)
  rw [hrev] at hy'
  rcases (by simpa [ffill_col] using hy' :
      y = some w ∨ y ∈ ffill_col (some w) zs) with h | h
  · simp [h]
  · exact ffill_col_all_some (some w) zs rfl y h

/-- Forward filling preserves every finite entry in place. -/
theorem ffill_col_getD_some (c : Option ℚ) (xs : List (Option ℚ)) (i : ℕ) (v : ℚ)
    (h : xs.getD i none = some v) : (ffill_col c xs).getD i none = some v := by
  induction xs generalizing c i with
  | nil => simp [List.getD] at h
  | cons x rest ih =>
    cases x with
    | none =>
      cases i with
      | zero => simp [List.getD_cons_zero] at h
      | succ j =>
        rw [List.getD_cons_succ] at h
        rw [show ffill_col c (none :: rest) = c :: ffill_col c rest from rfl,
          List.getD_cons_succ]
        exact ih c j h
    | some w =>
      cases i with
      | zero =>
        rw [List.getD_cons_zero] at h
        rw [show ffill_col c (some w :: rest) = some w :: ffill_col (some w) rest from rfl,
          List.getD_cons_zero]
        exact h
      | succ j =>
        rw [List.getD_cons_succ] at h
        rw [show ffill_col c (some w :: rest) = some w :: ffill_col (some w) rest from rfl,
          List.getD_cons_succ]
        exact ih (some w) j h

/-- Reversing a list moves the entry at i to length - 1 - i. -/
theorem reverse_getD (l : List (Option ℚ)) (i : ℕ) (hi : i < l.length) :
    l.reverse.getD i none = l.getD (l.length - 1 - i) none := by
  have h1 : i < l.reverse.length := by simpa using hi
  have h2 : l.length - 1 - i < l.length := by omega
  rw [List.getD_eq_getElem l.reverse none h1, List.getD_eq_getElem l none h2,
    List.getElem_reverse]

/-- The forward/backward fill preserves every finite entry in place. -/
theorem fill_column_getD_some (xs : List (Option ℚ)) (i : ℕ) (v : ℚ)
    (hi : i < xs.length) (h : xs.getD i none = some v) :
    (fill_column xs).getD i none = some v := by
  have h1 : (ffill_col none xs).getD i none = some v := ffill_col_getD_some none xs i v h
  have hl1 : (ffill_col none xs).length = xs.length := length_ffill_col none xs
  have h2 : (ffill_col none xs).reverse.getD (xs.length - 1 - i) none = some v := by
    rw [reverse_getD _ _ (by omega), hl1]
    have : xs.length - 1 - (xs.length - 1 - i) = i := by omega
    rw [this]
    exact h1
  have h3 : (ffill_col none (ffill_col none xs).reverse).getD (xs.length - 1 - i) none
      = some v := ffill_col_getD_some _ _ _ _ h2
  have hl2 : (ffill_col none (ffill_col none xs).reverse).length = xs.length := by
    rw [length_ffill_col, List.length_reverse, hl1]
  show (ffill_col none (ffill_col none xs).reverse).reverse.getD i none = some v
  rw [reverse_getD _ _ (by omega), hl2, h3]

/-- The filled stay has as many Day-Records as the incoming stay. -/
theorem length_fill_all (rows : List Row) : (fill_all rows).length = rows.length := by
  simp [fill_all]

/-- A column of the filled stay is the fill of that column of the incoming
stay. -/
theorem feature_col_fill_all (f : Feature) (rows : List Row) (i : ℕ)
    (hi : i < rows.length) :
    (feature_col f (fill_all rows)).getD i none
      = (fill_column (feature_col f rows)).getD i none := by
  have hlen : (feature_col f (fill_all rows)).length = rows.length := by
    simp [feature_col, length_fill_all]
  rw [List.getD_eq_getElem _ none (by rw [hlen]; exact hi)]
  simp only [feature_col, fill_all, List.map_map, List.getElem_map, List.getElem_range,
    Function.comp]

/-- C6 (amended): a stay with a catalog feature that is missing everywhere
is dropped whole; otherwise the stay is kept and every column is forward-
then backward-filled in place (every entry becomes finite, finite entries
are unchanged), the fill reading only the stay's own Day-Records; the
glucose column NaN, 5, NaN, 7, NaN fills to 5, 5, 5, 7, 7 (the interior
gap takes the earlier value under forward fill, not the later one claimed
by the spec's example). -/
theorem fill_nas_or_drop_spec :
    (∀ rows : List Row, (∃ f ∈ allFeatures, ∀ v ∈ feature_col f rows, v = none) →
      fill_nas_or_drop rows = none) ∧
    (∀ rows : List Row, (∀ f ∈ allFeatures, ∃ v ∈ feature_col f rows, v.isSome = true) →
      fill_nas_or_drop rows = some (fill_all rows) ∧
      (fill_all rows).length = rows.length ∧
      (∀ f : Feature, ∀ i : ℕ, i < rows.length →
        ((feature_col f (fill_all rows)).getD i none).isSome = true ∧
        (∀ v : ℚ, (feature_col f rows).getD i none = some v →
          (feature_col f (fill_all rows)).getD i none = some v))) ∧
    fill_column [none, some 5, none, some 7, none]
      = [some 5, some 5, some 5, some 7, some 7] := by
  refine ⟨?_, ?_, by decide⟩
  · intro rows ⟨f, hf, hnone⟩
    have hcond : allFeatures.all (fun f => (feature_col f rows).any (fun v => v.isSome))
        = false := by
      rw [List.all_eq_false]
      refine ⟨f, hf, ?_⟩
      rw [Bool.not_eq_true, List.any_eq_false]
      intro v hv
      simp [hnone v hv]
    simp [fill_nas_or_drop, hcond]
  · intro rows hall
    have hcond : allFeatures.all (fun f => (feature_col f rows).any (fun v => v.isSome))
        = true := by
      rw [List.all_eq_true]
      intro f hf
      rw [List.any_eq_true]
      exact hall f hf
    refine ⟨by simp [fill_nas_or_drop, hcond], length_fill_all rows, ?_⟩
    intro f i hi
    have hex : ∃ v ∈ feature_col f rows, v.isSome = true := hall f (mem_allFeatures f)
    have hlenc : (feature_col f rows).length = rows.length := by simp [feature_col]
    constructor
    · rw [feature_col_fill_all f rows i hi]
      have hmem : (fill_column (feature_col f rows)).getD i none
          ∈ fill_column (feature_col f rows) := by
        rw [List.getD_eq_getElem _ none (by rw [length_fill_column, hlenc]; exact hi)]
        exact List.getElem_mem _
      exact fill_column_all_some _ hex _ hmem
    · intro v hv
      rw [feature_col_fill_all f rows i hi]
      exact fill_column_getD_some _ i v (by rw [hlenc]; exact hi) hv

/-- Witness for C6: the keep-and-fill branch applied to the concrete
complete 3-day stay. -/
theorem fill_nas_or_drop_spec_witness :
    fill_nas_or_drop exStay3 = some (fill_all exStay3) :=
  (fill_nas_or_drop_spec.2.1 exStay3 (by decide)).1

/-- Counterexample for C6 as stated: the spec's fill example is wrong, the
glucose column NaN, 5, NaN, 7, NaN does not fill to 5, 5, 7, 7, 7 under
forward fill followed by backward fill (the entry at index 2 becomes 5). -/
theorem fill_example_counterexample :
    fill_column [none, some 5, none, some 7, none]
      ≠ [some 5, some 5, some 7, some 7, some 7] := by
  decide

/-- A column has a finite entry exactly when it is not all-missing. -/
theorem any_isSome_iff_not_all_isNone (l : List (Option ℚ)) :
    l.any (fun v => v.isSome) = true ↔ ¬ l.all (fun v => v.isNone) = true := by
  rw [List.any_eq_true, List.all_eq_true]
  constructor
  · rintro ⟨v, hv, hs⟩ hall
    have := hall v hv
    rw [Option.isNone_iff_eq_none] at this
    rw [this] at hs
    simp at hs
  · intro h
    by_contra hno
    push_neg at hno
    apply h
    intro v hv
    cases hvv : v with
    | none => rfl
    | some w => exact absurd (by rw [hvv]; rfl) (hno v hv)

/-- The gap scan starting at i returns -1 or an index in [i, i + length). -/
theorem get_nan_index_go_cases (l : List (Option ℚ)) (i : ℕ) :
    get_nan_index_go l i = -1 ∨
      ((i : ℤ) ≤ get_nan_index_go l i ∧ get_nan_index_go l i < (i : ℤ) + l.length) := by
  induction l generalizing i with
  | nil => exact Or.inl rfl
  | cons x rest ih =>
    cases x with
    | none =>
      right
      constructor
      · exact le_refl _
      · simp only [get_nan_index_go, List.length_cons]
        push_cast
        omega
    | some v =>
      rcases ih (i + 1) with h | ⟨h1, h2⟩
      · exact Or.inl h
      · right
        simp only [get_nan_index_go]
        constructor
        · refine le_trans ?_ h1
          push_cast
          omega
        · refine lt_of_lt_of_le h2 ?_
          simp only [List.length_cons]
          push_cast
          omega

/-- A stay kept by fill_nas_or_drop is its filled version. -/
theorem fill_nas_or_drop_some_eq (rows out : List Row)
    (h : fill_nas_or_drop rows = some out) : out = fill_all rows := by
  simp only [fill_nas_or_drop] at h
  split_ifs at h
  exact (Option.some.inj h).symm

/-- A stay kept by fill_nas_or_drop had a finite entry in every catalog
feature's column. -/
theorem fill_nas_or_drop_some_any (rows out : List Row) (f : Feature)
    (h : fill_nas_or_drop rows = some out) :
    ∃ v ∈ feature_col f rows, v.isSome = true := by
  simp only [fill_nas_or_drop] at h
  split_ifs at h with hcond
  exact List.any_eq_true.mp (List.all_eq_true.mp hcond f (mem_allFeatures f))

/-- After fill_nas_or_drop keeps a stay, every entry of every feature
column of the output is finite. -/
theorem fill_nas_or_drop_some_isSome (rows out : List Row) (f : Feature) (i : ℕ)
    (h : fill_nas_or_drop rows = some out) (hi : i < rows.length) :
    ((feature_col f out).getD i none).isSome = true := by
  rw [fill_nas_or_drop_some_eq rows out h, feature_col_fill_all f rows i hi]
  have hlenc : (feature_col f rows).length = rows.length := by simp [feature_col]
  have hmem : (fill_column (feature_col f rows)).getD i none
      ∈ fill_column (feature_col f rows) := by
    rw [List.getD_eq_getElem _ none (by rw [length_fill_column, hlenc]; exact hi)]
    exact List.getElem_mem _
  exact fill_column_all_some _ (fill_nas_or_drop_some_any rows out f h) _ hmem

/-- C5: for a stay that passes the imputer's minimum-length and
creatinine-availability checks, with k the first missing-creatinine index
found scanning from index 2: if k = 2 the whole stay is dropped; if k > 2
the Day-Records from index k on are removed and processing continues on the
prefix of the first k records (so a surviving stay has exactly k records);
if no gap exists nothing is removed by this rule. -/
theorem impute_holes_truncation_spec (rows : List Row)
    (hlen : 3 ≤ rows.length)
    (havail : ((feature_col Feature.creatinine rows).drop 2).any (fun v => v.isSome) = true) :
    (get_nan_index (feature_col Feature.creatinine rows) = 2 →
      impute_holes_stay rows = none) ∧
    (2 < get_nan_index (feature_col Feature.creatinine rows) →
      impute_holes_stay rows = fill_nas_or_drop
        (rows.take (get_nan_index (feature_col Feature.creatinine rows)).toNat) ∧
      (get_nan_index (feature_col Feature.creatinine rows)).toNat < rows.length ∧
      (∀ out : List Row, impute_holes_stay rows = some out →
        out.length = (get_nan_index (feature_col Feature.creatinine rows)).toNat)) ∧
    (get_nan_index (feature_col Feature.creatinine rows) = -1 →
      impute_holes_stay rows = fill_nas_or_drop rows ∧
      (∀ out : List Row, impute_holes_stay rows = some out →
        out.length = rows.length)) := by
  have hnotshort : ¬ rows.length < 3 := by omega
  have hnotall : ¬ ((feature_col Feature.creatinine rows).drop 2).all (fun v => v.isNone)
      = true := (any_isSome_iff_not_all_isNone _).mp havail
  have hklen : (feature_col Feature.creatinine rows).length = rows.length := by
    simp [feature_col]
  have hdroplen : ((feature_col Feature.creatinine rows).drop 2).length
      = rows.length - 2 := by
    rw [List.length_drop, hklen]
  have hcases := get_nan_index_go_cases ((feature_col Feature.creatinine rows).drop 2) 2
  rw [hdroplen] at hcases
  refine ⟨?_, ?_, ?_⟩
  · intro hk
    show (if rows.length < 3 then none
      else if ((feature_col Feature.creatinine rows).drop 2).all (fun v => v.isNone) then none
      else if get_nan_index (feature_col Feature.creatinine rows) = 2 then none
      else if get_nan_index (feature_col Feature.creatinine rows) ≠ -1 then
        fill_nas_or_drop (rows.take (get_nan_index (feature_col Feature.creatinine rows)).toNat)
      else fill_nas_or_drop rows) = none
    rw [if_neg hnotshort, if_neg hnotall, if_pos hk]
  · intro hk
    have heq : impute_holes_stay rows = fill_nas_or_drop
        (rows.take (get_nan_index (feature_col Feature.creatinine rows)).toNat) := by
      show (if rows.length < 3 then none
        else if ((feature_col Feature.creatinine rows).drop 2).all (fun v => v.isNone) then none
        else if get_nan_index (feature_col Feature.creatinine rows) = 2 then none
        else if get_nan_index (feature_col Feature.creatinine rows) ≠ -1 then
          fill_nas_or_drop (rows.take (get_nan_index (feature_col Feature.creatinine rows)).toNat)
        else fill_nas_or_drop rows) = _
      rw [if_neg hnotshort, if_neg hnotall, if_neg (by omega : ¬ get_nan_index
        (feature_col Feature.creatinine rows) = 2), if_pos (by omega : get_nan_index
        (feature_col Feature.creatinine rows) ≠ -1)]
    have hkbound : (get_nan_index (feature_col Feature.creatinine rows)).toNat
        < rows.length := by
      rcases hcases with h | ⟨h1, h2⟩
      · rw [get_nan_index] at hk
        omega
      · rw [get_nan_index] at hk ⊢
        omega
    refine ⟨heq, hkbound, ?_⟩
    intro out hout
    rw [heq] at hout
    rw [fill_nas_or_drop_some_eq _ _ hout, length_fill_all, List.length_take]
    omega
  · intro hk
    have heq : impute_holes_stay rows = fill_nas_or_drop rows := by
      show (if rows.length < 3 then none
        else if ((feature_col Feature.creatinine rows).drop 2).all (fun v => v.isNone) then none
        else if get_nan_index (feature_col Feature.creatinine rows) = 2 then none
        else if get_nan_index (feature_col Feature.creatinine rows) ≠ -1 then
          fill_nas_or_drop (rows.take (get_nan_index (feature_col Feature.creatinine rows)).toNat)
        else fill_nas_or_drop rows) = _
      rw [if_neg hnotshort, if_neg hnotall, if_neg (by omega : ¬ get_nan_index
        (feature_col Feature.creatinine rows) = 2), if_neg (fun hne => hne hk)]
    refine ⟨heq, ?_⟩
    intro out hout
    rw [heq] at hout
    rw [fill_nas_or_drop_some_eq _ _ hout, length_fill_all]

/-- Witness for C5: the spec's truncation example, a 5-day stay whose
creatinine is missing exactly at index 4 continues on its first 4 records. -/
theorem impute_holes_truncation_spec_witness :
    impute_holes_stay exStay5 = fill_nas_or_drop
      (exStay5.take (get_nan_index (feature_col Feature.creatinine exStay5)).toNat) :=
  ((impute_holes_truncation_spec exStay5 (by decide) (by decide)).2.1 (by decide)).1

/-- A stay kept by the per-stay imputer has finite creatinine at day
indices 0 and 1 (the fill guarantees it; the gap scan never looked there). -/
theorem impute_holes_stay_creatinine (rows out : List Row)
    (h : impute_holes_stay rows = some out) :
    ((feature_col Feature.creatinine out).getD 0 none).isSome = true ∧
    ((feature_col Feature.creatinine out).getD 1 none).isSome = true := by
  simp only [impute_holes_stay] at h
  split_ifs at h with h1 h2 h3 h4
  · -- truncating branch: the prefix kept has at least min(k, length) entries
    have hcases := get_nan_index_go_cases ((feature_col Feature.creatinine rows).drop 2) 2
    have hk3 : 3 ≤ (get_nan_index (feature_col Feature.creatinine rows)).toNat := by
      rw [get_nan_index] at h3 h4 ⊢
      rcases hcases with hc | ⟨hc1, hc2⟩
      · exact absurd hc h4
      · omega
    have hlen : 2 < (rows.take (get_nan_index
        (feature_col Feature.creatinine rows)).toNat).length := by
      rw [List.length_take]
      omega
    exact ⟨fill_nas_or_drop_some_isSome _ _ _ 0 h (by omega),
      fill_nas_or_drop_some_isSome _ _ _ 1 h (by omega)⟩
  · exact ⟨fill_nas_or_drop_some_isSome _ _ _ 0 h (by omega),
      fill_nas_or_drop_some_isSome _ _ _ 1 h (by omega)⟩

/-- C2: every stay present in the imputer's output has finite creatinine at
day indices 0 and 1, although the gap scan only inspects indices at or
after 2 (the per-stay forward/backward fill supplies days 0 and 1 from the
finite creatinine guaranteed at index 2). -/
theorem impute_holes_creatinine_defined (stays : List (List Row)) (out : List Row)
    (hmem : out ∈ impute_holes stays) :
    ((feature_col Feature.creatinine out).getD 0 none).isSome = true ∧
    ((feature_col Feature.creatinine out).getD 1 none).isSome = true := by
  obtain ⟨rows, _, hsome⟩ := List.mem_filterMap.mp hmem
  exact impute_holes_stay_creatinine rows out hsome

/-- Witness for C2: the imputer applied to the singleton table of the
complete 3-day stay. -/
theorem impute_holes_creatinine_defined_witness :
    ((feature_col Feature.creatinine (fill_all exStay3)).getD 0 none).isSome = true ∧
    ((feature_col Feature.creatinine (fill_all exStay3)).getD 1 none).isSome = true :=
  impute_holes_creatinine_defined [exStay3] (fill_all exStay3) (by
    have h : impute_holes [exStay3] = [fill_all exStay3] := rfl
    rw [h]
    exact List.mem_singleton.mpr rfl)

/-- C3: a stay of n Day-Records kept by the labeler comes out with
min (n - 1) 8 records (the last record is removed, then the stay is capped
at 8): each kept record carries its original creatinine value, index 0 is
labeled 0, and index i of 1 - n-2 is labeled 1 exactly when the next day's
rise reaches 0.3 or the next day's level reaches 1.5 times baseline. -/
theorem add_aki_labels_label_spec (st : LabelerStay) (out : List (ℚ × ℤ))
    (hlen : 3 ≤ st.scr.length) (hout : add_aki_labels_stay st = some out) :
    out.length = min (st.scr.length - 1) 8 ∧
    (∀ i : ℕ, i < out.length → (out.getD i (0, 0)).1 = st.scr.getD i 0) ∧
    (out.getD 0 (0, 0)).2 = 0 ∧
    (∀ i : ℕ, 1 ≤ i → i < out.length →
      (out.getD i (0, 0)).2 =
        (if 0.3 ≤ st.scr.getD (i + 1) 0 - st.scr.getD i 0
            ∨ 1.5 * get_baseline st.black st.age st.gender ≤ st.scr.getD (i + 1) 0
         then 1 else 0)) := by
  obtain ⟨b, a, g, scr⟩ := st
  dsimp only at hlen ⊢
  simp only [add_aki_labels_stay] at hout
  split_ifs at hout with h1 h2
  replace hout := (Option.some.inj hout).symm
  have hd : (creat_diffs scr).length = scr.length - 1 := by
    simp only [creat_diffs, List.length_zipWith, List.length_tail]
    omega
  have hdt : (creat_diffs scr).tail.length = scr.length - 2 := by
    rw [List.length_tail, hd]
    omega
  have hak : (List.zipWith (fun d s => hasAkiDiff d || hasAkiScr s b a g)
      (creat_diffs scr).tail (scr.drop 2)).length = scr.length - 2 := by
    rw [List.length_zipWith, hdt, List.length_drop]
    omega
  have hlab : ((0 : ℤ) :: (List.zipWith (fun d s => hasAkiDiff d || hasAkiScr s b a g)
      (creat_diffs scr).tail (scr.drop 2)).map (fun bb => if bb then 1 else 0)).length
      = scr.length - 1 := by
    rw [List.length_cons, List.length_map, hak]
    omega
  have hdl : scr.dropLast.length = scr.length - 1 := List.length_dropLast scr
  have hzip : (scr.dropLast.zip ((0 : ℤ) ::
      (List.zipWith (fun d s => hasAkiDiff d || hasAkiScr s b a g)
        (creat_diffs scr).tail (scr.drop 2)).map (fun bb => if bb then 1 else 0))).length
      = scr.length - 1 := by
    rw [List.length_zip, hdl, hlab, Nat.min_self]
  have hlout : out.length = min (scr.length - 1) 8 := by
    rw [hout, List.length_take, hzip, Nat.min_comm]
  have hgetoutElem : ∀ i : ℕ, i < out.length → ∀ hz : i < (scr.dropLast.zip ((0 : ℤ) ::
      (List.zipWith (fun d s => hasAkiDiff d || hasAkiScr s b a g)
        (creat_diffs scr).tail (scr.drop 2)).map (fun bb => if bb then 1 else 0))).length,
      out.getD i (0, 0) = (scr.dropLast.zip ((0 : ℤ) ::
      (List.zipWith (fun d s => hasAkiDiff d || hasAkiScr s b a g)
        (creat_diffs scr).tail (scr.drop 2)).map (fun bb => if bb then 1 else 0)))[i] := by
    intro i hi hz
    rw [hout]
    rw [List.getD_eq_getElem _ _ (by rw [← hout]; exact hi)]
    exact List.getElem_take _
  refine ⟨hlout, ?_, ?_, ?_⟩
  · intro i hi
    have hib : i < scr.length - 1 := by omega
    have hdli : i < scr.dropLast.length := by rw [hdl]; exact hib
    have hsli : i < scr.length := by omega
    have hz : i < (scr.dropLast.zip ((0 : ℤ) ::
        (List.zipWith (fun d s => hasAkiDiff d || hasAkiScr s b a g)
          (creat_diffs scr).tail (scr.drop 2)).map (fun bb => if bb then 1 else 0))).length := by
      rw [hzip]; exact hib
    rw [hgetoutElem i hi hz, List.getElem_zip]
    show scr.dropLast[i] = scr.getD i 0
    rw [List.getElem_dropLast, List.getD_eq_getElem scr 0 hsli]
  · have h0 : 0 < out.length := by omega
    have hz : 0 < (scr.dropLast.zip ((0 : ℤ) ::
        (List.zipWith (fun d s => hasAkiDiff d || hasAkiScr s b a g)
          (creat_diffs scr).tail (scr.drop 2)).map (fun bb => if bb then 1 else 0))).length := by
      rw [hzip]; omega
    rw [hgetoutElem 0 h0 hz, List.getElem_zip]
    rfl
  · intro i h1i hi
    obtain ⟨j, rfl⟩ : ∃ j, i = j + 1 := ⟨i - 1, by omega⟩
    have hib : j + 1 < scr.length - 1 := by omega
    have hsl2 : j + 2 < scr.length := by omega
    have hsl1 : j + 1 < scr.length := by omega
    have hb2j : 2 + j < scr.length := by omega
    have hz : j + 1 < (scr.dropLast.zip ((0 : ℤ) ::
        (List.zipWith (fun d s => hasAkiDiff d || hasAkiScr s b a g)
          (creat_diffs scr).tail (scr.drop 2)).map (fun bb => if bb then 1 else 0))).length := by
      rw [hzip]; exact hib
    have hlabb : j + 1 < ((0 : ℤ) :: (List.zipWith
        (fun d s => hasAkiDiff d || hasAkiScr s b a g)
        (creat_diffs scr).tail (scr.drop 2)).map (fun bb => if bb then 1 else 0)).length := by
      rw [hlab]; omega
    have hjak : j < (List.zipWith (fun d s => hasAkiDiff d || hasAkiScr s b a g)
        (creat_diffs scr).tail (scr.drop 2)).length := by rw [hak]; omega
    have hjdt : j < (creat_diffs scr).tail.length := by rw [hdt]; omega
    have hjd : j + 1 < (creat_diffs scr).length := by rw [hd]; omega
    have hjd2 : j < (scr.drop 2).length := by rw [List.length_drop]; omega
    rw [hgetoutElem (j + 1) hi hz, List.getElem_zip]
    show (((0 : ℤ) :: (List.zipWith (fun d s => hasAkiDiff d || hasAkiScr s b a g)
        (creat_diffs scr).tail (scr.drop 2)).map
        (fun bb => if bb then 1 else 0))[j + 1]) = _
    rw [List.getElem_cons_succ, List.getElem_map,
      List.getElem_zipWith (h := hjak)]
    have hdtj : (creat_diffs scr).tail[j] = scr[j + 2] - scr[j + 1] := by
      rw [List.getElem_tail]
      show (creat_diffs scr)[j + 1] = _
      simp only [creat_diffs]
      rw [List.getElem_zipWith (h := by simp [List.length_zipWith, List.length_tail]; omega)]
      rw [List.getElem_tail]
    have hd2j : (scr.drop 2)[j] = scr[2 + j] :=
      List.getElem_drop scr
    rw [hdtj, hd2j]
    have hsc1 : scr.getD (j + 1 + 1) 0 = scr[j + 2] := by
      rw [List.getD_eq_getElem scr 0 hsl2]
    have hsc2 : scr.getD (j + 1) 0 = scr[j + 1] := by
      rw [List.getD_eq_getElem scr 0 hsl1]
    have h2j : scr[2 + j] = scr[j + 2] := by
      congr 1
      omega
    rw [hsc1, hsc2, h2j]
    simp only [hasAkiDiff, hasAkiScr, Bool.or_eq_true, decide_eq_true_eq]

/-- Witness for C3: the spec's difference-trigger example, creatinine
1.0, 1.0, 1.4 with age 45, non-black, male: the record at index 1 is
labeled 1 because the next-day rise is 0.4. -/
theorem add_aki_labels_label_spec_witness :
    (((add_aki_labels_stay ⟨0, 45, 1, [1, 1, 14/10]⟩).getD []).getD 1 (0, 0)).2
      = (if 0.3 ≤ ([(1 : ℚ), 1, 14/10].getD 2 0 - [(1 : ℚ), 1, 14/10].getD 1 0)
            ∨ 1.5 * get_baseline 0 45 1 ≤ [(1 : ℚ), 1, 14/10].getD 2 0
         then 1 else 0) := by
  have hsome : add_aki_labels_stay ⟨0, 45, 1, [1, 1, 14/10]⟩
      = some [(1, 0), (1, if (hasAkiDiff ((14 : ℚ)/10 - 1) || hasAkiScr ((14 : ℚ)/10) 0 45 1)
          then 1 else 0)] := by
    have hc : (hasAkiDiff ((creat_diffs [(1 : ℚ), 1, 14/10]).getD 0 0)
        || hasAkiScr ([(1 : ℚ), 1, 14/10].getD 0 0) 0 45 1
        || hasAkiScr ([(1 : ℚ), 1, 14/10].getD 1 0) 0 45 1) = false := by
      simp only [creat_diffs, hasAkiDiff, hasAkiScr, List.tail_cons, List.zipWith_cons_cons,
        List.getD_cons_zero, List.getD_cons_succ, Bool.or_eq_false_iff,
        decide_eq_false_iff_not]
      norm_num [get_baseline]
    show (if (45 : ℕ) < 20 then none
      else if (hasAkiDiff ((creat_diffs [(1 : ℚ), 1, 14/10]).getD 0 0)
        || hasAkiScr ([(1 : ℚ), 1, 14/10].getD 0 0) 0 45 1
        || hasAkiScr ([(1 : ℚ), 1, 14/10].getD 1 0) 0 45 1) = true then none
      else some _) = _
    rw [if_neg (by omega), if_neg (by rw [hc]; simp)]
    rfl
  have h := (add_aki_labels_label_spec ⟨0, 45, 1, [1, 1, 14/10]⟩ _ (by simp) hsome).2.2.2
    1 (le_refl 1) (by simp)
  rw [hsome]
  exact h

/-- In a sorted column the entry at a smaller index is no larger. -/
theorem sorted_getD_le (l : List ℚ) (hs : l.Sorted (fun a b => a ≤ b)) (i j : ℕ)
    (hij : i ≤ j) (hj : j < l.length) : l.getD i 0 ≤ l.getD j 0 := by
  rw [List.getD_eq_getElem l 0 (lt_of_le_of_lt hij hj), List.getD_eq_getElem l 0 hj]
  have h := hs.rel_get_of_le (a := ⟨i, lt_of_le_of_lt hij hj⟩) (b := ⟨j, hj⟩)
    (Fin.mk_le_mk.mpr hij)
  simpa [List.get_eq_getElem] using h

/-- Linear interpolation between adjacent entries of a sorted column is
monotone in the fractional position. -/
theorem interp_mono_aux (s : List ℚ) (hs : s.Sorted (fun a b => a ≤ b)) (pp qq : ℚ)
    (i j : ℕ) (_hip : (i : ℚ) ≤ pp) (hpi : pp < (i : ℚ) + 1) (hjq : (j : ℚ) ≤ qq)
    (hij : i ≤ j) (hppqq : pp ≤ qq) (hjn : j < s.length) :
    s.getD i 0 + (pp - (i : ℚ)) * (s.getD (i + 1) (s.getD i 0) - s.getD i 0)
      ≤ s.getD j 0 + (qq - (j : ℚ)) * (s.getD (j + 1) (s.getD j 0) - s.getD j 0) := by
  have hpair : ∀ m : ℕ, m < s.length →
      s.getD m 0 ≤ s.getD (m + 1) (s.getD m 0) := by
    intro m hm
    by_cases hc : m + 1 < s.length
    · have hgen : s.getD (m + 1) (s.getD m 0) = s.getD (m + 1) 0 := by
        rw [List.getD_eq_getElem _ _ hc, List.getD_eq_getElem _ _ hc]
      rw [hgen]
      exact sorted_getD_le s hs m (m + 1) (by omega) hc
    · rw [@List.getD_eq_default _ s (s.getD m 0) (m + 1) (by omega)]
  rcases Nat.eq_or_lt_of_le hij with heq | hlt
  · subst heq
    have hx01 := hpair i (by omega)
    have hmul := mul_le_mul_of_nonneg_right
      (show pp - (i : ℚ) ≤ qq - (i : ℚ) by linarith)
      (show (0 : ℚ) ≤ s.getD (i + 1) (s.getD i 0) - s.getD i 0 by linarith)
    linarith
  · have hi1n : i + 1 < s.length := by omega
    have hx01 := hpair i (by omega)
    have hval_p : s.getD i 0 + (pp - (i : ℚ))
        * (s.getD (i + 1) (s.getD i 0) - s.getD i 0) ≤ s.getD (i + 1) (s.getD i 0) := by
      have hmul := mul_le_mul_of_nonneg_right
        (show pp - (i : ℚ) ≤ 1 by linarith)
        (show (0 : ℚ) ≤ s.getD (i + 1) (s.getD i 0) - s.getD i 0 by linarith)
      linarith
    have hmid : s.getD (i + 1) (s.getD i 0) ≤ s.getD j 0 := by
      have hgen : s.getD (i + 1) (s.getD i 0) = s.getD (i + 1) 0 := by
        rw [List.getD_eq_getElem _ _ hi1n, List.getD_eq_getElem _ _ hi1n]
      rw [hgen]
      exact sorted_getD_le s hs (i + 1) j (by omega) hjn
    have hy01 := hpair j hjn
    have hval_q : s.getD j 0 ≤ s.getD j 0 + (qq - (j : ℚ))
        * (s.getD (j + 1) (s.getD j 0) - s.getD j 0) := by
      have hmul := mul_nonneg (show (0 : ℚ) ≤ qq - (j : ℚ) by linarith)
        (show (0 : ℚ) ≤ s.getD (j + 1) (s.getD j 0) - s.getD j 0 by linarith)
      linarith
    linarith

/-- The linear-interpolation percentile is monotone in p, so the 1st
percentile never exceeds the 99th. -/
theorem quantile_le_quantile (xs : List ℚ) (hne : xs ≠ []) (p q : ℚ)
    (hp : 0 ≤ p) (hpq : p ≤ q) (hq : q ≤ 1) : quantile p xs ≤ quantile q xs := by
  have hs : (sorted_col xs).Sorted (fun a b => a ≤ b) := List.sorted_insertionSort _ xs
  have hn : 1 ≤ (sorted_col xs).length := by
    have h1 : (sorted_col xs).length = xs.length := List.length_insertionSort _ xs
    have h2 : xs.length ≠ 0 := fun h => hne (List.length_eq_zero.mp h)
    omega
  have hn1 : (0 : ℚ) ≤ ((sorted_col xs).length : ℚ) - 1 := by
    have : (1 : ℚ) ≤ ((sorted_col xs).length : ℚ) := by exact_mod_cast hn
    linarith
  have hpp0 : 0 ≤ p * (((sorted_col xs).length : ℚ) - 1) := mul_nonneg hp hn1
  have hqq0 : 0 ≤ q * (((sorted_col xs).length : ℚ) - 1) :=
    mul_nonneg (le_trans hp hpq) hn1
  have hppqq : p * (((sorted_col xs).length : ℚ) - 1)
      ≤ q * (((sorted_col xs).length : ℚ) - 1) := mul_le_mul_of_nonneg_right hpq hn1
  have hqqn : q * (((sorted_col xs).length : ℚ) - 1) ≤ ((sorted_col xs).length : ℚ) - 1 := by
    have := mul_le_mul_of_nonneg_right hq hn1
    linarith
  have hfp : (0 : ℤ) ≤ ⌊p * (((sorted_col xs).length : ℚ) - 1)⌋ := Int.floor_nonneg.mpr hpp0
  have hfq : (0 : ℤ) ≤ ⌊q * (((sorted_col xs).length : ℚ) - 1)⌋ := Int.floor_nonneg.mpr hqq0
  have hcast_p : (((⌊p * (((sorted_col xs).length : ℚ) - 1)⌋).toNat : ℕ) : ℚ)
      = ((⌊p * (((sorted_col xs).length : ℚ) - 1)⌋ : ℤ) : ℚ) := by
    exact_mod_cast congrArg (fun z : ℤ => (z : ℚ)) (Int.toNat_of_nonneg hfp)
  have hcast_q : (((⌊q * (((sorted_col xs).length : ℚ) - 1)⌋).toNat : ℕ) : ℚ)
      = ((⌊q * (((sorted_col xs).length : ℚ) - 1)⌋ : ℤ) : ℚ) := by
    exact_mod_cast congrArg (fun z : ℤ => (z : ℚ)) (Int.toNat_of_nonneg hfq)
  show quantile p xs ≤ quantile q xs
  simp only [quantile]
  refine interp_mono_aux (sorted_col xs) hs _ _ _ _ ?_ ?_ ?_ ?_ ?_ ?_
  · rw [hcast_p]
    exact Int.floor_le _
  · rw [hcast_p]
    exact Int.lt_floor_add_one _
  · rw [hcast_q]
    exact Int.floor_le _
  · exact Int.toNat_le_toNat (Int.floor_le_floor hppqq)
  · exact hppqq
  · have h1 : ⌊q * (((sorted_col xs).length : ℚ) - 1)⌋
        ≤ ⌊((sorted_col xs).length : ℚ) - 1⌋ := Int.floor_le_floor hqqn
    have h2 : ⌊((sorted_col xs).length : ℚ) - 1⌋ = ((sorted_col xs).length : ℤ) - 1 := by
      rw [show ((sorted_col xs).length : ℚ) - 1
          = ((((sorted_col xs).length : ℤ) - 1 : ℤ) : ℚ) by push_cast; ring,
        Int.floor_intCast]
    rw [h2] at h1
    omega

/-- C1 (amended): after one pass of the Outlier Clipper every value of a
feature column lies in the closed interval between the 1st and 99th
percentile of the incoming column.  The pass is not idempotent: the
percentiles recomputed on the clipped column can lie strictly inside that
interval, so a second pass can change the table again. -/
theorem transform_outliers_col_bounds (xs : List ℚ) (v : ℚ)
    (hv : v ∈ transform_outliers_col xs) :
    quantile (1 / 100) xs ≤ v ∧ v ≤ quantile (99 / 100) xs := by
  have hne : xs ≠ [] := by
    rintro rfl
    simp [transform_outliers_col] at hv
  have hlu : quantile (1 / 100) xs ≤ quantile (99 / 100) xs :=
    quantile_le_quantile xs hne (1 / 100) (99 / 100) (by norm_num) (by norm_num) (by norm_num)
  simp only [transform_outliers_col, List.mem_map] at hv
  obtain ⟨w, _, rfl⟩ := hv
  split_ifs with h1 h2
  · exact ⟨le_refl _, hlu⟩
  · exact ⟨hlu, le_refl _⟩
  · exact ⟨le_of_not_lt h1, le_of_not_lt h2⟩

/-- Counterexample for C1 as stated: on the single-column table with values
0 and 1 a second run of the Outlier Clipper changes its own output (the
first pass yields 0.01 and 0.99, whose recomputed percentiles 0.0198 and
0.9802 clip the column again). -/
theorem transform_outliers_not_idempotent :
    transform_outliers (transform_outliers [[(0 : ℚ), 1]]) ≠ transform_outliers [[(0 : ℚ), 1]] := by
  have h1 : transform_outliers [[(0 : ℚ), 1]] = [[1 / 100, 99 / 100]] := by
    norm_num [transform_outliers, transform_outliers_col, quantile, sorted_col,
      List.insertionSort, List.orderedInsert, List.getD]
  have h2 : transform_outliers [[(1 : ℚ) / 100, 99 / 100]] = [[99 / 5000, 4901 / 5000]] := by
    norm_num [transform_outliers, transform_outliers_col, quantile, sorted_col,
      List.insertionSort, List.orderedInsert, List.getD]
  rw [h1, h2]
  intro hcon
  rw [List.cons.injEq, List.cons.injEq] at hcon
  have := hcon.1.1
  norm_num at this

/-- Witness for C1 (amended): the bound theorem applied to the clipped
value 0.01 of the column with values 0 and 1. -/
theorem transform_outliers_col_bounds_witness :
    quantile (1 / 100) [(0 : ℚ), 1] ≤ 1 / 100 ∧ (1 / 100 : ℚ) ≤ quantile (99 / 100) [(0 : ℚ), 1] := by
  have hcol : transform_outliers_col [(0 : ℚ), 1] = [1 / 100, 99 / 100] := by
    norm_num [transform_outliers_col, quantile, sorted_col,
      List.insertionSort, List.orderedInsert, List.getD]
  refine transform_outliers_col_bounds [(0 : ℚ), 1] (1 / 100) ?_
  rw [hcol]
  exact List.mem_cons_self _ _

end AkiExtract
